import Mathlib

/-!
Verification of the maze / particle-filter simulation core (maze.py, main.py).

The development shallowly embeds the program: Python floats are modelled as
elements of a linear ordered field with a floor function (ℚ for executable
witnesses, ℝ where trigonometric functions are involved), the numpy wall grid
as a function from indices to 4-bit masks, element assignment as pointwise
function update, and the while loops of the distance sensor as fuelled
recursion.  Fallible operations return Option / Except values.
-/

namespace PF

/-! ### Wall grids and Maze construction (maze.py, Maze.__init__ helpers) -/

/-- Wall grid: each cell carries a 4-bit mask; bit value 1 = top wall,
2 = right wall, 4 = bottom wall, 8 = left wall (maze.py docstring). -/
abbrev Grid : Type := ℕ → ℕ → ℕ

/-- Pointwise update of one cell, modelling a numpy element assignment. -/
def updG (m : Grid) (i j v : ℕ) : Grid :=
  fun i' j' => if i' = i ∧ j' = j then v else m i' j'

/-- Tag for the two kinds of wall error found by Maze.check_wall_inconsistency
(the strings 'v' and 'h' in the source). -/
inductive WAxis : Type
  | v : WAxis
  | h : WAxis
  deriving DecidableEq

/-- Model of Maze.check_wall_inconsistency: scan all vertically shared edges,
then all horizontally shared edges, collecting the pairs whose two facing
bits disagree (vertical errors first, as in the source). -/
def check_wall_inconsistency (nr nc : ℕ) (m : Grid) : List ((ℕ × ℕ) × WAxis) :=
  ((List.range nr).map (fun i => (List.range (nc - 1)).filterMap (fun j =>
      if ¬ ((m i j &&& 2 ≠ 0) ↔ (m i (j + 1) &&& 8 ≠ 0)) then some ((i, j), WAxis.v)
      else none))).flatten
    ++ ((List.range (nr - 1)).map (fun i => (List.range nc).filterMap (fun j =>
      if ¬ ((m i j &&& 4 ≠ 0) ↔ (m (i + 1) j &&& 1 ≠ 0)) then some ((i, j), WAxis.h)
      else none))).flatten

/-- Model of one repair step of Maze.fix_wall_inconsistency: OR the missing
wall bit into both cells of the inconsistent pair. -/
def repairStep (m : Grid) : (ℕ × ℕ) × WAxis → Grid
  | ((i, j), WAxis.v) =>
    let m1 := updG m i j (m i j ||| 2)
    updG m1 i (j + 1) (m1 i (j + 1) ||| 8)
  | ((i, j), WAxis.h) =>
    let m1 := updG m i j (m i j ||| 4)
    updG m1 (i + 1) j (m1 (i + 1) j ||| 1)

/-- Model of Maze.fix_wall_inconsistency: compute the error list on the current
grid, then apply every repair in order. -/
def fix_wall_inconsistency (nr nc : ℕ) (m : Grid) : Grid :=
  (check_wall_inconsistency nr nc m).foldl repairStep m

/-- Model of one iteration of the first loop of Maze.fix_maze_boundary: close
the left edge (bit 8) of cell (i,0) and the right edge (bit 2) of cell
(i,-1), numpy index -1 being column nc - 1. -/
def boundaryRowStep (nc : ℕ) (m : Grid) (i : ℕ) : Grid :=
  let m1 := updG m i 0 (m i 0 ||| 8)
  updG m1 i (nc - 1) (m1 i (nc - 1) ||| 2)

/-- Model of one iteration of the second loop of Maze.fix_maze_boundary: close
the top edge (bit 1) of cell (0,j) and the bottom edge (bit 4) of cell
(-1,j), numpy index -1 being row nr - 1. -/
def boundaryColStep (nr : ℕ) (m : Grid) (j : ℕ) : Grid :=
  let m1 := updG m 0 j (m 0 j ||| 1)
  updG m1 (nr - 1) j (m1 (nr - 1) j ||| 4)

/-- Model of Maze.fix_maze_boundary: the row loop followed by the column loop. -/
def fix_maze_boundary (nr nc : ℕ) (m : Grid) : Grid :=
  (List.range nc).foldl (boundaryColStep nr) ((List.range nr).foldl (boundaryRowStep nc) m)

/-- Model of Maze.__init__ on an explicit grid (and of the tail of
Maze.random_maze): fix_maze_boundary, then fix_wall_inconsistency. -/
def maze_build (nr nc : ℕ) (m : Grid) : Grid :=
  fix_wall_inconsistency nr nc (fix_maze_boundary nr nc m)

/-- Model of the random phase of Maze.random_maze: starting from the zero grid,
OR bit 2 into (i,j) for every internal right edge whose Bernoulli draw came up,
then OR bit 4 for every internal bottom edge; the draws are abstracted as the
boolean functions coinV and coinH. -/
def random_grid (nr nc : ℕ) (coinV coinH : ℕ → ℕ → Bool) : Grid :=
  let m0 : Grid := fun _ _ => 0
  let m1 := (List.range nr).foldl (fun acc i =>
    (List.range (nc - 1)).foldl (fun acc2 j =>
      if coinV i j then updG acc2 i j (acc2 i j ||| 2) else acc2) acc) m0
  (List.range (nr - 1)).foldl (fun acc i =>
    (List.range nc).foldl (fun acc2 j =>
      if coinH i j then updG acc2 i j (acc2 i j ||| 4) else acc2) acc) m1

/-- Model of Maze.random_maze: random edge phase, then the same two fix-ups as
the explicit-grid path. -/
def random_maze (nr nc : ℕ) (coinV coinH : ℕ → ℕ → Bool) : Grid :=
  maze_build nr nc (random_grid nr nc coinV coinH)

/-- Invariant A of the spec (boundary closure) for an nr × nc grid. -/
def boundary_closed_grid (nr nc : ℕ) (m : Grid) : Prop :=
  (∀ j, j < nc → m 0 j &&& 1 ≠ 0 ∧ m (nr - 1) j &&& 4 ≠ 0) ∧
    (∀ i, i < nr → m i 0 &&& 8 ≠ 0 ∧ m i (nc - 1) &&& 2 ≠ 0)

/-- Invariant B of the spec (pairwise wall consistency) for an nr × nc grid. -/
def walls_consistent (nr nc : ℕ) (m : Grid) : Prop :=
  (∀ i, i < nr → ∀ j, j + 1 < nc → ((m i j &&& 2 ≠ 0) ↔ (m i (j + 1) &&& 8 ≠ 0))) ∧
    (∀ i, i + 1 < nr → ∀ j, j < nc → ((m i j &&& 4 ≠ 0) ↔ (m (i + 1) j &&& 1 ≠ 0)))

/-- Bits are only ever ORed in: every wall bit set in m is still set in m'. -/
def subgrid (m m' : Grid) : Prop :=
  ∀ i j t, (m i j).testBit t = true → (m' i j).testBit t = true

lemma updG_same (m : Grid) (i j v : ℕ) : updG m i j v i j = v := by
  simp [updG]

lemma updG_ne (m : Grid) (i j v i' j' : ℕ) (h : ¬ (i' = i ∧ j' = j)) :
    updG m i j v i' j' = m i' j' := by
  simp only [updG, if_neg h]

lemma and_two_pow_ne {x t : ℕ} : x &&& 2 ^ t ≠ 0 ↔ x.testBit t = true := by
  rw [Nat.and_two_pow]
  rcases h : x.testBit t <;> simp [h]

lemma bit1_iff (x : ℕ) : x &&& 1 ≠ 0 ↔ x.testBit 0 = true :=
  @and_two_pow_ne x 0

lemma bit2_iff (x : ℕ) : x &&& 2 ≠ 0 ↔ x.testBit 1 = true := by
  simpa using @and_two_pow_ne x 1

lemma bit4_iff (x : ℕ) : x &&& 4 ≠ 0 ↔ x.testBit 2 = true := by
  simpa using @and_two_pow_ne x 2

lemma bit8_iff (x : ℕ) : x &&& 8 ≠ 0 ↔ x.testBit 3 = true := by
  simpa using @and_two_pow_ne x 3

lemma subgrid_refl (m : Grid) : subgrid m m := fun _ _ _ h => h

lemma subgrid_trans {a b c : Grid} (h1 : subgrid a b) (h2 : subgrid b c) :
    subgrid a c := fun i j t h => h2 i j t (h1 i j t h)

lemma subgrid_updOr (m : Grid) (i j v : ℕ) : subgrid m (updG m i j (m i j ||| v)) := by
  intro i' j' t h
  by_cases hc : i' = i ∧ j' = j
  · obtain ⟨rfl, rfl⟩ := hc
    rw [updG_same, Nat.testBit_or, h, Bool.true_or]
  · rw [updG_ne _ _ _ _ _ _ hc]
    exact h

lemma subgrid_boundaryRowStep (nc : ℕ) (m : Grid) (i : ℕ) :
    subgrid m (boundaryRowStep nc m i) :=
  subgrid_trans (subgrid_updOr m i 0 8)
    (subgrid_updOr (updG m i 0 (m i 0 ||| 8)) i (nc - 1) 2)

lemma subgrid_boundaryColStep (nr : ℕ) (m : Grid) (j : ℕ) :
    subgrid m (boundaryColStep nr m j) :=
  subgrid_trans (subgrid_updOr m 0 j 1)
    (subgrid_updOr (updG m 0 j (m 0 j ||| 1)) (nr - 1) j 4)

lemma subgrid_repairStep (m : Grid) (e : (ℕ × ℕ) × WAxis) :
    subgrid m (repairStep m e) := by
  rcases e with ⟨⟨i, j⟩, ax⟩
  cases ax
  · exact subgrid_trans (subgrid_updOr m i j 2)
      (subgrid_updOr (updG m i j (m i j ||| 2)) i (j + 1) 8)
  · exact subgrid_trans (subgrid_updOr m i j 4)
      (subgrid_updOr (updG m i j (m i j ||| 4)) (i + 1) j 1)

lemma subgrid_foldl {α : Type} {f : Grid → α → Grid}
    (hf : ∀ m e, subgrid m (f m e)) :
    ∀ (l : List α) (m : Grid), subgrid m (l.foldl f m) := by
  intro l
  induction l with
  | nil => intro m; exact subgrid_refl m
  | cons e es ih => intro m; exact subgrid_trans (hf m e) (ih (f m e))

lemma subgrid_fix_maze_boundary (nr nc : ℕ) (m : Grid) :
    subgrid m (fix_maze_boundary nr nc m) :=
  subgrid_trans (subgrid_foldl (subgrid_boundaryRowStep nc) (List.range nr) m)
    (subgrid_foldl (subgrid_boundaryColStep nr) (List.range nc) _)

lemma subgrid_fix_wall_inconsistency (nr nc : ℕ) (m : Grid) :
    subgrid m (fix_wall_inconsistency nr nc m) :=
  subgrid_foldl subgrid_repairStep (check_wall_inconsistency nr nc m) m

lemma subgrid_maze_build (nr nc : ℕ) (m : Grid) :
    subgrid m (maze_build nr nc m) :=
  subgrid_trans (subgrid_fix_maze_boundary nr nc m)
    (subgrid_fix_wall_inconsistency nr nc _)

lemma testBit_updG (m : Grid) (i j v i' j' t : ℕ) :
    (updG m i j v i' j').testBit t =
      if i' = i ∧ j' = j then v.testBit t else (m i' j').testBit t := by
  unfold updG
  split_ifs <;> rfl

lemma boundary_closed_mono {nr nc : ℕ} {m m' : Grid} (h : subgrid m m')
    (hA : boundary_closed_grid nr nc m) : boundary_closed_grid nr nc m' := by
  obtain ⟨h1, h2⟩ := hA
  refine ⟨fun j hj => ?_, fun i hi => ?_⟩
  · obtain ⟨ha, hb⟩ := h1 j hj
    exact ⟨(bit1_iff _).mpr (h _ _ _ ((bit1_iff _).mp ha)),
      (bit4_iff _).mpr (h _ _ _ ((bit4_iff _).mp hb))⟩
  · obtain ⟨ha, hb⟩ := h2 i hi
    exact ⟨(bit8_iff _).mpr (h _ _ _ ((bit8_iff _).mp ha)),
      (bit2_iff _).mpr (h _ _ _ ((bit2_iff _).mp hb))⟩

lemma or_testBit_left {x c t : ℕ} (hc : c.testBit t = true) :
    (x ||| c).testBit t = true := by
  rw [Nat.testBit_or, hc, Bool.or_true]

lemma boundaryRowStep_left (nc : ℕ) (m : Grid) (i : ℕ) :
    ((boundaryRowStep nc m i) i 0).testBit 3 = true := by
  have h1 : ((updG m i 0 (m i 0 ||| 8)) i 0).testBit 3 = true := by
    rw [updG_same]
    exact or_testBit_left (by decide)
  exact subgrid_updOr (updG m i 0 (m i 0 ||| 8)) i (nc - 1) 2 i 0 3 h1

lemma boundaryRowStep_right (nc : ℕ) (m : Grid) (i : ℕ) :
    ((boundaryRowStep nc m i) i (nc - 1)).testBit 1 = true := by
  rw [show boundaryRowStep nc m i =
    updG (updG m i 0 (m i 0 ||| 8)) i (nc - 1)
      ((updG m i 0 (m i 0 ||| 8)) i (nc - 1) ||| 2) from rfl, updG_same]
  exact or_testBit_left (by decide)

lemma boundaryColStep_top (nr : ℕ) (m : Grid) (j : ℕ) :
    ((boundaryColStep nr m j) 0 j).testBit 0 = true := by
  have h1 : ((updG m 0 j (m 0 j ||| 1)) 0 j).testBit 0 = true := by
    rw [updG_same]
    exact or_testBit_left (by decide)
  exact subgrid_updOr (updG m 0 j (m 0 j ||| 1)) (nr - 1) j 4 0 j 0 h1

lemma boundaryColStep_bottom (nr : ℕ) (m : Grid) (j : ℕ) :
    ((boundaryColStep nr m j) (nr - 1) j).testBit 2 = true := by
  rw [show boundaryColStep nr m j =
    updG (updG m 0 j (m 0 j ||| 1)) (nr - 1) j
      ((updG m 0 j (m 0 j ||| 1)) (nr - 1) j ||| 4) from rfl, updG_same]
  exact or_testBit_left (by decide)

lemma rowfold_bits (nc : ℕ) :
    ∀ (nr : ℕ) (m : Grid) (i : ℕ), i < nr →
      (((List.range nr).foldl (boundaryRowStep nc) m) i 0).testBit 3 = true ∧
      (((List.range nr).foldl (boundaryRowStep nc) m) i (nc - 1)).testBit 1 = true := by
  intro nr
  induction nr with
  | zero => intro m i hi; exact absurd hi (by omega)
  | succ n ih =>
    intro m i hi
    rw [List.range_succ, List.foldl_append, List.foldl_cons, List.foldl_nil]
    rcases Nat.lt_succ_iff_lt_or_eq.mp hi with hlt | rfl
    · obtain ⟨ha, hb⟩ := ih m i hlt
      exact ⟨subgrid_boundaryRowStep nc _ n _ _ _ ha,
        subgrid_boundaryRowStep nc _ n _ _ _ hb⟩
    · exact ⟨boundaryRowStep_left nc _ i, boundaryRowStep_right nc _ i⟩

lemma colfold_bits (nr : ℕ) :
    ∀ (nc : ℕ) (m : Grid) (j : ℕ), j < nc →
      (((List.range nc).foldl (boundaryColStep nr) m) 0 j).testBit 0 = true ∧
      (((List.range nc).foldl (boundaryColStep nr) m) (nr - 1) j).testBit 2 = true := by
  intro nc
  induction nc with
  | zero => intro m j hj; exact absurd hj (by omega)
  | succ n ih =>
    intro m j hj
    rw [List.range_succ, List.foldl_append, List.foldl_cons, List.foldl_nil]
    rcases Nat.lt_succ_iff_lt_or_eq.mp hj with hlt | rfl
    · obtain ⟨ha, hb⟩ := ih m j hlt
      exact ⟨subgrid_boundaryColStep nr _ n _ _ _ ha,
        subgrid_boundaryColStep nr _ n _ _ _ hb⟩
    · exact ⟨boundaryColStep_top nr _ j, boundaryColStep_bottom nr _ j⟩

lemma boundary_closed_fix_maze_boundary (nr nc : ℕ) (m : Grid) :
    boundary_closed_grid nr nc (fix_maze_boundary nr nc m) := by
  unfold fix_maze_boundary
  constructor
  · intro j hj
    obtain ⟨ha, hb⟩ := colfold_bits nr nc _ j hj
    exact ⟨(bit1_iff _).mpr ha, (bit4_iff _).mpr hb⟩
  · intro i hi
    obtain ⟨ha, hb⟩ :=
      rowfold_bits nc nr m i hi
    refine ⟨(bit8_iff _).mpr ?_, (bit2_iff _).mpr ?_⟩
    · exact subgrid_foldl (subgrid_boundaryColStep nr) (List.range nc) _ _ _ _ ha
    · exact subgrid_foldl (subgrid_boundaryColStep nr) (List.range nc) _ _ _ _ hb

lemma boundary_closed_maze_build (nr nc : ℕ) (m : Grid) :
    boundary_closed_grid nr nc (maze_build nr nc m) :=
  boundary_closed_mono (subgrid_fix_wall_inconsistency nr nc _)
    (boundary_closed_fix_maze_boundary nr nc m)

lemma mem_check_v (nr nc : ℕ) (m : Grid) (i j : ℕ) :
    ((i, j), WAxis.v) ∈ check_wall_inconsistency nr nc m ↔
      i < nr ∧ j < nc - 1 ∧ ¬ ((m i j &&& 2 ≠ 0) ↔ (m i (j + 1) &&& 8 ≠ 0)) := by
  simp [check_wall_inconsistency, List.mem_flatten, Option.ite_none_right_eq_some, Prod.ext_iff]
  aesop

lemma mem_check_h (nr nc : ℕ) (m : Grid) (i j : ℕ) :
    ((i, j), WAxis.h) ∈ check_wall_inconsistency nr nc m ↔
      i < nr - 1 ∧ j < nc ∧ ¬ ((m i j &&& 4 ≠ 0) ↔ (m (i + 1) j &&& 1 ≠ 0)) := by
  simp [check_wall_inconsistency, List.mem_flatten, Option.ite_none_right_eq_some, Prod.ext_iff]
  aesop

/-- Mask of wall bits that the repair of error e ORs into cell (i,j). -/
def repair_mask (e : (ℕ × ℕ) × WAxis) (i j : ℕ) : ℕ :=
  match e with
  | ((a, b), WAxis.v) => (if i = a ∧ j = b then 2 else 0) ||| (if i = a ∧ j = b + 1 then 8 else 0)
  | ((a, b), WAxis.h) => (if i = a ∧ j = b then 4 else 0) ||| (if i = a + 1 ∧ j = b then 1 else 0)

lemma repairStep_testBit (m : Grid) (e : (ℕ × ℕ) × WAxis) (i j t : ℕ) :
    ((repairStep m e) i j).testBit t =
      ((m i j).testBit t || (repair_mask e i j).testBit t) := by
  rcases e with ⟨⟨a, b⟩, ax⟩
  cases ax
  · by_cases h2 : i = a ∧ j = b + 1
    · obtain ⟨rfl, rfl⟩ := h2
      have hne : ¬ (i = i ∧ b + 1 = b) := by omega
      rw [show repairStep m ((i, b), WAxis.v) i (b + 1) =
          updG m i b (m i b ||| 2) i (b + 1) ||| 8 from updG_same _ _ _ _,
        updG_ne _ _ _ _ _ _ hne]
      have hm1 : ¬ (i = i ∧ b + 1 = b) := hne
      rw [repair_mask]
      rw [if_neg (by omega : ¬ (i = i ∧ b + 1 = b)), if_pos ⟨rfl, rfl⟩, Nat.zero_or,
        Nat.testBit_or]
    · by_cases h1 : i = a ∧ j = b
      · obtain ⟨rfl, rfl⟩ := h1
        rw [show repairStep m ((i, j), WAxis.v) =
            updG (updG m i j (m i j ||| 2)) i (j + 1)
              ((updG m i j (m i j ||| 2)) i (j + 1) ||| 8) from rfl,
          updG_ne _ _ _ _ _ _ (by omega : ¬ (i = i ∧ j = j + 1)), updG_same]
        rw [repair_mask, if_pos ⟨rfl, rfl⟩, if_neg (by omega : ¬ (i = i ∧ j = j + 1)),
          Nat.or_zero, Nat.testBit_or]
      · rw [show repairStep m ((a, b), WAxis.v) =
            updG (updG m a b (m a b ||| 2)) a (b + 1)
              ((updG m a b (m a b ||| 2)) a (b + 1) ||| 8) from rfl,
          updG_ne _ _ _ _ _ _ h2, updG_ne _ _ _ _ _ _ h1]
        rw [repair_mask, if_neg h1, if_neg h2, Nat.or_zero, Nat.zero_testBit, Bool.or_false]
  · by_cases h2 : i = a + 1 ∧ j = b
    · obtain ⟨rfl, rfl⟩ := h2
      rw [show repairStep m ((a, j), WAxis.h) (a + 1) j =
          updG m a j (m a j ||| 4) (a + 1) j ||| 1 from updG_same _ _ _ _,
        updG_ne _ _ _ _ _ _ (by omega : ¬ (a + 1 = a ∧ j = j))]
      rw [repair_mask]
      rw [if_neg (by omega : ¬ (a + 1 = a ∧ j = j)), if_pos ⟨rfl, rfl⟩, Nat.zero_or,
        Nat.testBit_or]
    · by_cases h1 : i = a ∧ j = b
      · obtain ⟨rfl, rfl⟩ := h1
        rw [show repairStep m ((i, j), WAxis.h) =
            updG (updG m i j (m i j ||| 4)) (i + 1) j
              ((updG m i j (m i j ||| 4)) (i + 1) j ||| 1) from rfl,
          updG_ne _ _ _ _ _ _ (by omega : ¬ (i = i + 1 ∧ j = j)), updG_same]
        rw [repair_mask, if_pos ⟨rfl, rfl⟩, if_neg (by omega : ¬ (i = i + 1 ∧ j = j)),
          Nat.or_zero, Nat.testBit_or]
      · rw [show repairStep m ((a, b), WAxis.h) =
            updG (updG m a b (m a b ||| 4)) (a + 1) b
              ((updG m a b (m a b ||| 4)) (a + 1) b ||| 1) from rfl,
          updG_ne _ _ _ _ _ _ h2, updG_ne _ _ _ _ _ _ h1]
        rw [repair_mask, if_neg h1, if_neg h2, Nat.or_zero, Nat.zero_testBit, Bool.or_false]

lemma foldRepair_testBit :
    ∀ (errs : List ((ℕ × ℕ) × WAxis)) (m : Grid) (i j t : ℕ),
      ((errs.foldl repairStep m) i j).testBit t =
        ((m i j).testBit t || errs.any (fun e => (repair_mask e i j).testBit t)) := by
  intro errs
  induction errs with
  | nil => intro m i j t; simp
  | cons e es ih =>
    intro m i j t
    rw [List.foldl_cons, ih, repairStep_testBit, List.any_cons, Bool.or_assoc]

lemma testBit_ite (c : Prop) [Decidable c] (x y t : ℕ) :
    (if c then x else y).testBit t = if c then x.testBit t else y.testBit t := by
  split_ifs <;> rfl

lemma repair_mask_bit2 (e : (ℕ × ℕ) × WAxis) (i j : ℕ) :
    (repair_mask e i j).testBit 1 = true ↔ e = ((i, j), WAxis.v) := by
  rcases e with ⟨⟨a, b⟩, ax⟩
  cases ax
  · simp only [repair_mask, Nat.testBit_or, testBit_ite]
    by_cases h1 : i = a ∧ j = b <;> by_cases h2 : i = a ∧ j = b + 1 <;>
      simp [h1, h2, Prod.ext_iff, show Nat.testBit 2 1 = true from rfl,
        show Nat.testBit 8 1 = false from rfl, show Nat.testBit 0 1 = false from rfl] <;>
      omega
  · simp [repair_mask, Nat.testBit_or, testBit_ite, show Nat.testBit 4 1 = false from rfl,
      show Nat.testBit 1 1 = false from rfl, show Nat.testBit 0 1 = false from rfl]

lemma repair_mask_bit8 (e : (ℕ × ℕ) × WAxis) (i j : ℕ) :
    (repair_mask e i (j + 1)).testBit 3 = true ↔ e = ((i, j), WAxis.v) := by
  rcases e with ⟨⟨a, b⟩, ax⟩
  cases ax
  · simp only [repair_mask, Nat.testBit_or, testBit_ite]
    by_cases h1 : i = a ∧ j + 1 = b <;> by_cases h2 : i = a ∧ j + 1 = b + 1 <;>
      simp [h1, h2, Prod.ext_iff, show Nat.testBit 2 3 = false from rfl,
        show Nat.testBit 8 3 = true from rfl, show Nat.testBit 0 3 = false from rfl] <;>
      omega
  · simp [repair_mask, Nat.testBit_or, testBit_ite, show Nat.testBit 4 3 = false from rfl,
      show Nat.testBit 1 3 = false from rfl, show Nat.testBit 0 3 = false from rfl]

lemma repair_mask_bit4 (e : (ℕ × ℕ) × WAxis) (i j : ℕ) :
    (repair_mask e i j).testBit 2 = true ↔ e = ((i, j), WAxis.h) := by
  rcases e with ⟨⟨a, b⟩, ax⟩
  cases ax
  · simp [repair_mask, Nat.testBit_or, testBit_ite, show Nat.testBit 2 2 = false from rfl,
      show Nat.testBit 8 2 = false from rfl, show Nat.testBit 0 2 = false from rfl]
  · simp only [repair_mask, Nat.testBit_or, testBit_ite]
    by_cases h1 : i = a ∧ j = b <;> by_cases h2 : i = a + 1 ∧ j = b <;>
      simp [h1, h2, Prod.ext_iff, show Nat.testBit 4 2 = true from rfl,
        show Nat.testBit 1 2 = false from rfl, show Nat.testBit 0 2 = false from rfl] <;>
      omega

lemma repair_mask_bit1 (e : (ℕ × ℕ) × WAxis) (i j : ℕ) :
    (repair_mask e (i + 1) j).testBit 0 = true ↔ e = ((i, j), WAxis.h) := by
  rcases e with ⟨⟨a, b⟩, ax⟩
  cases ax
  · simp only [repair_mask, Nat.testBit_or, testBit_ite]
    simp [show Nat.testBit 2 0 = false from rfl, show Nat.testBit 8 0 = false from rfl,
      show Nat.testBit 0 0 = false from rfl]
  · simp only [repair_mask, Nat.testBit_or, testBit_ite]
    by_cases h1 : i + 1 = a ∧ j = b <;> by_cases h2 : i + 1 = a + 1 ∧ j = b <;>
      simp [h1, h2, Prod.ext_iff, show Nat.testBit 4 0 = false from rfl,
        show Nat.testBit 1 0 = true from rfl, show Nat.testBit 0 0 = false from rfl] <;>
      omega

lemma fix_wall_bit2 (nr nc : ℕ) (m : Grid) (i j : ℕ) :
    ((fix_wall_inconsistency nr nc m) i j &&& 2 ≠ 0) ↔
      (m i j &&& 2 ≠ 0) ∨ ((i, j), WAxis.v) ∈ check_wall_inconsistency nr nc m := by
  rw [bit2_iff, bit2_iff, fix_wall_inconsistency, foldRepair_testBit,
    Bool.or_eq_true, List.any_eq_true]
  simp only [repair_mask_bit2, exists_eq_right]

lemma fix_wall_bit8 (nr nc : ℕ) (m : Grid) (i j : ℕ) :
    ((fix_wall_inconsistency nr nc m) i (j + 1) &&& 8 ≠ 0) ↔
      (m i (j + 1) &&& 8 ≠ 0) ∨ ((i, j), WAxis.v) ∈ check_wall_inconsistency nr nc m := by
  rw [bit8_iff, bit8_iff, fix_wall_inconsistency, foldRepair_testBit,
    Bool.or_eq_true, List.any_eq_true]
  simp only [repair_mask_bit8, exists_eq_right]

lemma fix_wall_bit4 (nr nc : ℕ) (m : Grid) (i j : ℕ) :
    ((fix_wall_inconsistency nr nc m) i j &&& 4 ≠ 0) ↔
      (m i j &&& 4 ≠ 0) ∨ ((i, j), WAxis.h) ∈ check_wall_inconsistency nr nc m := by
  rw [bit4_iff, bit4_iff, fix_wall_inconsistency, foldRepair_testBit,
    Bool.or_eq_true, List.any_eq_true]
  simp only [repair_mask_bit4, exists_eq_right]

lemma fix_wall_bit1 (nr nc : ℕ) (m : Grid) (i j : ℕ) :
    ((fix_wall_inconsistency nr nc m) (i + 1) j &&& 1 ≠ 0) ↔
      (m (i + 1) j &&& 1 ≠ 0) ∨ ((i, j), WAxis.h) ∈ check_wall_inconsistency nr nc m := by
  rw [bit1_iff, bit1_iff, fix_wall_inconsistency, foldRepair_testBit,
    Bool.or_eq_true, List.any_eq_true]
  simp only [repair_mask_bit1, exists_eq_right]

lemma walls_consistent_fix_wall (nr nc : ℕ) (m : Grid) :
    walls_consistent nr nc (fix_wall_inconsistency nr nc m) := by
  constructor
  · intro i hi j hj
    by_cases hmem : ((i, j), WAxis.v) ∈ check_wall_inconsistency nr nc m
    · exact iff_of_true ((fix_wall_bit2 nr nc m i j).mpr (Or.inr hmem))
        ((fix_wall_bit8 nr nc m i j).mpr (Or.inr hmem))
    · have hiff : (m i j &&& 2 ≠ 0) ↔ (m i (j + 1) &&& 8 ≠ 0) := by
        by_contra hne
        exact hmem ((mem_check_v nr nc m i j).mpr ⟨hi, by omega, hne⟩)
      rw [fix_wall_bit2, fix_wall_bit8]
      simp only [hmem, or_false]
      exact hiff
  · intro i hi j hj
    by_cases hmem : ((i, j), WAxis.h) ∈ check_wall_inconsistency nr nc m
    · exact iff_of_true ((fix_wall_bit4 nr nc m i j).mpr (Or.inr hmem))
        ((fix_wall_bit1 nr nc m i j).mpr (Or.inr hmem))
    · have hiff : (m i j &&& 4 ≠ 0) ↔ (m (i + 1) j &&& 1 ≠ 0) := by
        by_contra hne
        exact hmem ((mem_check_h nr nc m i j).mpr ⟨by omega, hj, hne⟩)
      rw [fix_wall_bit4, fix_wall_bit1]
      simp only [hmem, or_false]
      exact hiff

lemma check_empty_of_consistent (nr nc : ℕ) (m : Grid)
    (hB : walls_consistent nr nc m) :
    check_wall_inconsistency nr nc m = [] := by
  rw [List.eq_nil_iff_forall_not_mem]
  rintro ⟨⟨i, j⟩, ax⟩ hmem
  cases ax
  · obtain ⟨hi, hj, hne⟩ := (mem_check_v nr nc m i j).mp hmem
    exact hne (hB.1 i hi j (by omega))
  · obtain ⟨hi, hj, hne⟩ := (mem_check_h nr nc m i j).mp hmem
    exact hne (hB.2 i (by omega) j hj)

lemma walls_consistent_maze_build (nr nc : ℕ) (m : Grid) :
    walls_consistent nr nc (maze_build nr nc m) :=
  walls_consistent_fix_wall nr nc (fix_maze_boundary nr nc m)

/-! ### Poses, mazes with geometry, motion (Particle.try_move) -/

/-- Pose of an agent: continuous position and heading in degrees. -/
structure Pose (K : Type) where
  x : K
  y : K
  heading : K
  deriving DecidableEq

/-- Maze with cell geometry, as used by the motion and sensor code.  Cell
masks are read through a total function on ℤ × ℤ indices; the claims under
verification only exercise reads at indices the code keeps inside the array. -/
structure Maze (K : Type) where
  grid_height : K
  grid_width : K
  num_rows : ℕ
  num_cols : ℕ
  cells : ℤ → ℤ → ℕ

variable {K : Type} [LinearOrderedField K] [FloorRing K]

/-- Derived attribute width = num_cols * grid_width (Maze.__init__). -/
def Maze.width (mz : Maze K) : K := (mz.num_cols : K) * mz.grid_width

/-- Derived attribute height = num_rows * grid_height (Maze.__init__). -/
def Maze.height (mz : Maze K) : K := (mz.num_rows : K) * mz.grid_height

/-- Result of a try_move call: the returned boolean (or the raised exception)
together with the final pose of the mutated particle. -/
structure MoveOut (K : Type) where
  res : Except String Bool
  pose : Pose K

/-- Model of the body of Particle.try_move from the point where the
displacement (dx, dy) has been computed (maze.py lines 363-416).  Python's
int(v // w) on floats is floor division, hence the ⌊·⌋ casts; numpy cell
reads become reads of the total cells function. -/
def try_move_aux (p : Pose K) (dx dy : K) (mz : Maze K) : MoveOut K :=
  let x := p.x + dx
  let y := p.y + dy
  let gj1 : ℤ := ⌊p.x / mz.grid_width⌋
  let gi1 : ℤ := ⌊p.y / mz.grid_height⌋
  let gj2 : ℤ := ⌊x / mz.grid_width⌋
  let gi2 : ℤ := ⌊y / mz.grid_height⌋
  if gi2 < 0 ∨ (mz.num_rows : ℤ) ≤ gi2 ∨ gj2 < 0 ∨ (mz.num_cols : ℤ) ≤ gj2 then
    ⟨Except.ok false, p⟩
  else if gi1 = gi2 ∧ gj1 = gj2 then
    ⟨Except.ok true, ⟨x, y, p.heading⟩⟩
  else if (gi1 - gi2).natAbs = 1 ∧ (gj1 - gj2).natAbs = 0 then
    if mz.cells (min gi1 gi2) gj1 &&& 4 ≠ 0 then ⟨Except.ok false, p⟩
    else ⟨Except.ok true, ⟨x, y, p.heading⟩⟩
  else if (gi1 - gi2).natAbs = 0 ∧ (gj1 - gj2).natAbs = 1 then
    if mz.cells gi1 (min gj1 gj2) &&& 2 ≠ 0 then ⟨Except.ok false, p⟩
    else ⟨Except.ok true, ⟨x, y, p.heading⟩⟩
  else if (gi1 - gi2).natAbs = 1 ∧ (gj1 - gj2).natAbs = 1 then
    let x0 : K := ((max gj1 gj2 : ℤ) : K) * mz.grid_width
    let y0 : K := (y - p.y) / (x - p.x) * (x0 - p.x) + p.y
    if mz.cells ⌊y0 / mz.grid_height⌋ (min gj1 gj2) &&& 2 ≠ 0 then ⟨Except.ok false, p⟩
    else
      let y0b : K := ((max gi1 gi2 : ℤ) : K) * mz.grid_height
      let x0b : K := (x - p.x) / (y - p.y) * (y0b - p.y) + p.x
      if mz.cells (min gi1 gi2) ⌊x0b / mz.grid_width⌋ &&& 4 ≠ 0 then ⟨Except.ok false, p⟩
      else ⟨Except.ok true, ⟨x, y, p.heading⟩⟩
  else ⟨Except.error "Unexpected collision detection.", p⟩

/-- Degrees to radians, np.radians. -/
noncomputable def radians (deg : ℝ) : ℝ := deg * Real.pi / 180

/-- Model of Particle.try_move: the displacement is sin/cos of the heading
scaled by the speed (maze.py lines 357-364), then the collision logic. -/
noncomputable def try_move (p : Pose ℝ) (speed : ℝ) (mz : Maze ℝ) : MoveOut ℝ :=
  try_move_aux p (Real.sin (radians p.heading) * speed)
    (Real.cos (radians p.heading) * speed) mz

/-! ### Distance sensor (Maze.permissibilities, Maze.distance_to_walls) -/

/-- Model of Maze.permissibilities: (up, right, down, left) openness. -/
def permissibilities (mz : Maze K) (i j : ℤ) : Bool × Bool × Bool × Bool :=
  (mz.cells i j &&& 1 == 0, mz.cells i j &&& 2 == 0,
    mz.cells i j &&& 4 == 0, mz.cells i j &&& 8 == 0)

/-- Validity of a cell index pair for the nr × nc numpy array. -/
def inGrid (mz : Maze K) (i j : ℤ) : Prop :=
  0 ≤ i ∧ i < mz.num_rows ∧ 0 ≤ j ∧ j < mz.num_cols

instance (mz : Maze K) (i j : ℤ) : Decidable (inGrid mz i j) := by
  unfold inGrid
  infer_instance

/-- Model of the first while loop of Maze.distance_to_walls (walk upwards while
the top edge is open, accumulating grid_height per hop).  The loop is fuelled;
the in-grid test models the validity of the numpy cell read, so a some result
certifies that every read stayed inside the array. -/
def walk_up (mz : Maze K) : ℕ → ℤ → ℤ → K → Option K
  | 0, _, _, _ => none
  | fuel + 1, i, j, d =>
    if ¬ inGrid mz i j then none
    else if (permissibilities mz i j).1 then walk_up mz fuel (i - 1) j (d + mz.grid_height)
    else some d

/-- Model of the second while loop of Maze.distance_to_walls (rightwards). -/
def walk_right (mz : Maze K) : ℕ → ℤ → ℤ → K → Option K
  | 0, _, _, _ => none
  | fuel + 1, i, j, d =>
    if ¬ inGrid mz i j then none
    else if (permissibilities mz i j).2.1 then walk_right mz fuel i (j + 1) (d + mz.grid_width)
    else some d

/-- Model of the third while loop of Maze.distance_to_walls (downwards). -/
def walk_down (mz : Maze K) : ℕ → ℤ → ℤ → K → Option K
  | 0, _, _, _ => none
  | fuel + 1, i, j, d =>
    if ¬ inGrid mz i j then none
    else if (permissibilities mz i j).2.2.1 then walk_down mz fuel (i + 1) j (d + mz.grid_height)
    else some d

/-- Model of the fourth while loop of Maze.distance_to_walls (leftwards). -/
def walk_left (mz : Maze K) : ℕ → ℤ → ℤ → K → Option K
  | 0, _, _, _ => none
  | fuel + 1, i, j, d =>
    if ¬ inGrid mz i j then none
    else if (permissibilities mz i j).2.2.2 then walk_left mz fuel i (j - 1) (d + mz.grid_width)
    else some d

/-- Model of Maze.distance_to_walls: all four walks start from the cell
containing (x, y); the initial accumulators are the residual offsets of the
coordinate inside that cell (maze.py lines 133-163). -/
def distance_to_walls (mz : Maze K) (x y : K) (fuel : ℕ) : Option (List K) :=
  let i : ℤ := ⌊y / mz.grid_height⌋
  let j : ℤ := ⌊x / mz.grid_width⌋
  match walk_up mz fuel i j (y - (⌊y / mz.grid_height⌋ : K) * mz.grid_height),
      walk_right mz fuel i j (mz.grid_width - (x - (⌊x / mz.grid_width⌋ : K) * mz.grid_width)),
      walk_down mz fuel i j (mz.grid_height - (y - (⌊y / mz.grid_height⌋ : K) * mz.grid_height)),
      walk_left mz fuel i j (x - (⌊x / mz.grid_width⌋ : K) * mz.grid_width) with
  | some d1, some d2, some d3, some d4 => some [d1, d2, d3, d4]
  | _, _, _, _ => none

/-! ### Particles (Particle.__init__, fix_invalid_particles, read_sensor) -/

/-- State of a particle: pose, importance weight, sensor limit. -/
structure ParticleState (K : Type) where
  pose : Pose K
  weight : K
  sensor_limit : Option K

/-- Python's modulo on reals: a % b = a - b * ⌊a / b⌋ (sign of the divisor). -/
def pymod (a b : K) : K := a - b * ⌊a / b⌋

/-- Model of Particle.fix_invalid_particles: clamp x then y sequentially, then
reduce the heading modulo 360 (maze.py lines 300-317; 0.9999 as a rational). -/
def fix_invalid_particles (mz : Maze K) (p : Pose K) : Pose K :=
  let x1 := if p.x < 0 then 0 else p.x
  let x2 := if x1 > mz.width then mz.width * (9999 / 10000) else x1
  let y1 := if p.y < 0 then 0 else p.y
  let y2 := if y1 > mz.height then mz.height * (9999 / 10000) else y1
  ⟨x2, y2, pymod p.heading 360⟩

/-- Model of the heading-relative reorientation and clipping in
Particle.read_sensor (maze.py lines 333-353): bucket the heading modulo 360
into quadrants, rotate the 4-vector by Python list slicing, then clip each
component to the sensor limit when one is configured. -/
def orient_readings (heading : K) (readings : List K) (sensor_limit : Option K) : List K :=
  let hm := pymod heading 360
  let r :=
    if 45 ≤ hm ∧ hm < 135 then readings
    else if 135 ≤ hm ∧ hm < 225 then
      readings.drop (readings.length - 1) ++ readings.take (readings.length - 1)
    else if 225 ≤ hm ∧ hm < 315 then
      readings.drop (readings.length - 2) ++ readings.take (readings.length - 2)
    else readings.drop (readings.length - 3) ++ readings.take (readings.length - 3)
  match sensor_limit with
  | none => r
  | some lim => r.map (fun v => if v > lim then lim else v)

/-- Model of Particle.read_sensor: raw distances, then reorientation/clipping. -/
def read_sensor (mz : Maze K) (q : ParticleState K) (fuel : ℕ) : Option (List K) :=
  (distance_to_walls mz q.pose.x q.pose.y fuel).map
    (fun readings => orient_readings q.pose.heading readings q.sensor_limit)

/-- Model of Particle.__init__ (maze.py lines 280-297).  The random draw that
replaces a missing heading and the Gaussian noise of add_noise are abstracted
as the parameters rand_heading and noise.  The Python signature defaults the
weight to 1.0; call sites that omit it pass particle_default_weight. -/
def particle_init (x y : K) (mz : Maze K) (heading : Option K) (weight : K)
    (sensor_limit : Option K) (noisy : Bool) (rand_heading : K) (noise : K → K) :
    ParticleState K :=
  let h0 := match heading with
    | none => rand_heading
    | some h => h
  let p0 : Pose K := if noisy then ⟨noise x, noise y, noise h0⟩ else ⟨x, y, h0⟩
  { pose := fix_invalid_particles mz p0, weight := weight, sensor_limit := sensor_limit }

/-- Default of the weight parameter of Particle.__init__ (1.0). -/
def particle_default_weight (K : Type) [LinearOrderedField K] : K := 1

/-- Model of the resampling construction sites in main.py lines 60-71: a draw
that found no particle spawns a fresh particle at uniformly random coordinates
(fx, fy); a successful draw is cloned at the drawn pose with noise.  Neither
site passes a weight, so Python applies the default 1.0. -/
def resampled_particle (mz : Maze K) (draw : Option (ParticleState K)) (fx fy : K)
    (sensor_limit : Option K) (rand_heading : K) (noise : K → K) : ParticleState K :=
  match draw with
  | none =>
    particle_init fx fy mz none (particle_default_weight K) sensor_limit false
      rand_heading noise
  | some q =>
    particle_init q.pose.x q.pose.y mz (some q.pose.heading) (particle_default_weight K)
      sensor_limit true rand_heading noise

/-! ### Weighted resampling (WeightedDistribution, bisect) -/

/-- Cumulative sums as built by WeightedDistribution.__init__: accum starts at
0.0 and each particle appends accum + weight. -/
def cumsum (acc : K) : List K → List K
  | [] => []
  | w :: ws => (acc + w) :: cumsum (acc + w) ws

/-- Model of WeightedDistribution.__init__: the cumulative weights of the
particle population, in population order. -/
def wd_distribution (ps : List (ParticleState K)) : List K :=
  cumsum 0 (ps.map (fun q => q.weight))

/-- Model of Python's bisect.bisect_left inner loop: binary search for the
insertion point of x in a (reads a.getD, which the loop keeps in range). -/
def bisectGo (a : List K) (x : K) (lo hi : ℕ) : ℕ :=
  if _h : lo < hi then
    if a.getD ((lo + hi) / 2) 0 < x then bisectGo a x ((lo + hi) / 2 + 1) hi
    else bisectGo a x lo ((lo + hi) / 2)
  else lo
termination_by hi - lo
decreasing_by
  · have h1 : lo ≤ (lo + hi) / 2 := by omega
    omega
  · have h2 : (lo + hi) / 2 < hi := by omega
    omega

/-- Python's bisect.bisect_left with the default lo = 0, hi = len(a). -/
def bisect_left (a : List K) (x : K) : ℕ := bisectGo a x 0 a.length

/-- Model of WeightedDistribution.random_select for a given uniform draw u:
index the particle list at bisect_left(distribution, u); the IndexError branch
that returns None is the out-of-range lookup of getElem?. -/
def random_select (ps : List (ParticleState K)) (u : K) : Option (ParticleState K) :=
  ps[bisect_left (wd_distribution ps) u]?

/-! ### Theorems for the claims -/

lemma try_move_aux_cases (p : Pose K) (dx dy : K) (mz : Maze K) :
    ((try_move_aux p dx dy mz).pose.heading = p.heading) ∧
      ((try_move_aux p dx dy mz).res = Except.ok true →
        (try_move_aux p dx dy mz).pose = ⟨p.x + dx, p.y + dy, p.heading⟩) ∧
      ((try_move_aux p dx dy mz).res ≠ Except.ok true →
        (try_move_aux p dx dy mz).pose = p) := by
  simp only [try_move_aux]
  split_ifs <;> simp

/-- Claim C9: try_move never modifies the heading, for every outcome; it
modifies (x, y) only when it returns True, in which case the new pose is
exactly (x + sin(heading_rad)·speed, y + cos(heading_rad)·speed); on any
other outcome (False return or exception) the pose is unchanged. -/
theorem claim_C9 (p : Pose ℝ) (speed : ℝ) (mz : Maze ℝ) :
    ((try_move p speed mz).pose.heading = p.heading) ∧
      ((try_move p speed mz).res = Except.ok true →
        (try_move p speed mz).pose =
          ⟨p.x + Real.sin (radians p.heading) * speed,
            p.y + Real.cos (radians p.heading) * speed, p.heading⟩) ∧
      ((try_move p speed mz).res ≠ Except.ok true → (try_move p speed mz).pose = p) :=
  try_move_aux_cases p (Real.sin (radians p.heading) * speed)
    (Real.cos (radians p.heading) * speed) mz

/-- Unit real maze used to exercise try_move on a concrete input. -/
def mzR_unit : Maze ℝ := ⟨1, 1, 1, 1, fun _ _ => 15⟩

theorem claim_C9_witness :
    (try_move ⟨0, 0, 0⟩ 5 mzR_unit).res ≠ Except.ok true ∧
      (try_move ⟨0, 0, 0⟩ 5 mzR_unit).pose = ⟨0, 0, 0⟩ := by
  have hne : (try_move ⟨0, 0, 0⟩ 5 mzR_unit).res ≠ Except.ok true := by
    simp [try_move, try_move_aux, radians, mzR_unit]
  exact ⟨hne, (claim_C9 ⟨0, 0, 0⟩ 5 mzR_unit).2.2 hne⟩

/-- Claim C2: with the candidate cell inside the grid, a move that stays in
the same cell is always accepted; a move crossing exactly one row (same
column) is accepted iff bit 4 of the cell with the smaller row index is
clear; a move crossing exactly one column (same row) is accepted iff bit 2
of the cell with the smaller column index is clear. -/
theorem claim_C2 (p : Pose K) (dx dy : K) (mz : Maze K) (gi1 gi2 gj1 gj2 : ℤ)
    (hgi1 : gi1 = ⌊p.y / mz.grid_height⌋) (hgi2 : gi2 = ⌊(p.y + dy) / mz.grid_height⌋)
    (hgj1 : gj1 = ⌊p.x / mz.grid_width⌋) (hgj2 : gj2 = ⌊(p.x + dx) / mz.grid_width⌋)
    (hin : 0 ≤ gi2 ∧ gi2 < mz.num_rows ∧ 0 ≤ gj2 ∧ gj2 < mz.num_cols) :
    (gi1 = gi2 ∧ gj1 = gj2 →
      try_move_aux p dx dy mz = ⟨Except.ok true, ⟨p.x + dx, p.y + dy, p.heading⟩⟩) ∧
      ((gi1 - gi2).natAbs = 1 ∧ gj1 = gj2 →
        ((try_move_aux p dx dy mz).res = Except.ok true ↔
          mz.cells (min gi1 gi2) gj1 &&& 4 = 0)) ∧
      (gi1 = gi2 ∧ (gj1 - gj2).natAbs = 1 →
        ((try_move_aux p dx dy mz).res = Except.ok true ↔
          mz.cells gi1 (min gj1 gj2) &&& 2 = 0)) := by
  subst hgi1 hgi2 hgj1 hgj2
  have hb : ¬ (⌊(p.y + dy) / mz.grid_height⌋ < 0 ∨
      (mz.num_rows : ℤ) ≤ ⌊(p.y + dy) / mz.grid_height⌋ ∨
      ⌊(p.x + dx) / mz.grid_width⌋ < 0 ∨
      (mz.num_cols : ℤ) ≤ ⌊(p.x + dx) / mz.grid_width⌋) := by
    omega
  refine ⟨fun hcase => ?_, fun hcase => ?_, fun hcase => ?_⟩
  · simp only [try_move_aux]
    rw [if_neg hb, if_pos hcase]
  · obtain ⟨h1, h2⟩ := hcase
    have hns : ¬ (⌊p.y / mz.grid_height⌋ = ⌊(p.y + dy) / mz.grid_height⌋ ∧
        ⌊p.x / mz.grid_width⌋ = ⌊(p.x + dx) / mz.grid_width⌋) := by
      omega
    have hc3 : (⌊p.y / mz.grid_height⌋ - ⌊(p.y + dy) / mz.grid_height⌋).natAbs = 1 ∧
        (⌊p.x / mz.grid_width⌋ - ⌊(p.x + dx) / mz.grid_width⌋).natAbs = 0 := ⟨h1, by omega⟩
    simp only [try_move_aux]
    rw [if_neg hb, if_neg hns, if_pos hc3]
    by_cases hbit : mz.cells (min ⌊p.y / mz.grid_height⌋ ⌊(p.y + dy) / mz.grid_height⌋)
        ⌊p.x / mz.grid_width⌋ &&& 4 ≠ 0
    · rw [if_pos hbit]
      simp [hbit]
    · rw [if_neg hbit]
      simp [not_ne_iff.mp hbit]
  · obtain ⟨h1, h2⟩ := hcase
    have hns : ¬ (⌊p.y / mz.grid_height⌋ = ⌊(p.y + dy) / mz.grid_height⌋ ∧
        ⌊p.x / mz.grid_width⌋ = ⌊(p.x + dx) / mz.grid_width⌋) := by
      omega
    have hn3 : ¬ ((⌊p.y / mz.grid_height⌋ - ⌊(p.y + dy) / mz.grid_height⌋).natAbs = 1 ∧
        (⌊p.x / mz.grid_width⌋ - ⌊(p.x + dx) / mz.grid_width⌋).natAbs = 0) := by
      omega
    have hc4 : (⌊p.y / mz.grid_height⌋ - ⌊(p.y + dy) / mz.grid_height⌋).natAbs = 0 ∧
        (⌊p.x / mz.grid_width⌋ - ⌊(p.x + dx) / mz.grid_width⌋).natAbs = 1 := ⟨by omega, h2⟩
    simp only [try_move_aux]
    rw [if_neg hb, if_neg hns, if_neg hn3, if_pos hc4]
    by_cases hbit : mz.cells ⌊p.y / mz.grid_height⌋
        (min ⌊p.x / mz.grid_width⌋ ⌊(p.x + dx) / mz.grid_width⌋) &&& 2 ≠ 0
    · rw [if_pos hbit]
      simp [hbit]
    · rw [if_neg hbit]
      simp [not_ne_iff.mp hbit]

/-- Open 2 × 2 rational maze (all cells mask 0) for concrete move attempts. -/
def mzQ_open2 : Maze ℚ := ⟨1, 1, 2, 2, fun _ _ => 0⟩

theorem claim_C2_witness :
    try_move_aux (⟨1/2, 1/2, 0⟩ : Pose ℚ) 0 0 mzQ_open2 =
      ⟨Except.ok true, ⟨1/2 + 0, 1/2 + 0, 0⟩⟩ :=
  (claim_C2 ⟨1/2, 1/2, 0⟩ 0 0 mzQ_open2 0 0 0 0
    (by with_unfolding_all decide) (by with_unfolding_all decide)
    (by with_unfolding_all decide) (by with_unfolding_all decide)
    (by with_unfolding_all decide)).1 ⟨rfl, rfl⟩

/-- Claim C1: for a diagonal crossing (one row and one column) whose candidate
cell passed the bounds test, try_move tests the right-edge bit of the
min-column cell at the row of the intersection with the crossed vertical grid
line, then the bottom-edge bit of the min-row cell at the column of the
intersection with the crossed horizontal grid line, in that order; it accepts
exactly when both tested bits are clear. -/
theorem claim_C1 (p : Pose K) (dx dy : K) (mz : Maze K) (gi1 gi2 gj1 gj2 : ℤ) (y0 x0b : K)
    (hgi1 : gi1 = ⌊p.y / mz.grid_height⌋) (hgi2 : gi2 = ⌊(p.y + dy) / mz.grid_height⌋)
    (hgj1 : gj1 = ⌊p.x / mz.grid_width⌋) (hgj2 : gj2 = ⌊(p.x + dx) / mz.grid_width⌋)
    (hy0 : y0 = ((p.y + dy) - p.y) / ((p.x + dx) - p.x) *
      (((max gj1 gj2 : ℤ) : K) * mz.grid_width - p.x) + p.y)
    (hx0b : x0b = ((p.x + dx) - p.x) / ((p.y + dy) - p.y) *
      (((max gi1 gi2 : ℤ) : K) * mz.grid_height - p.y) + p.x)
    (hin : 0 ≤ gi2 ∧ gi2 < mz.num_rows ∧ 0 ≤ gj2 ∧ gj2 < mz.num_cols)
    (hdiag : (gi1 - gi2).natAbs = 1 ∧ (gj1 - gj2).natAbs = 1) :
    (try_move_aux p dx dy mz =
      (if mz.cells ⌊y0 / mz.grid_height⌋ (min gj1 gj2) &&& 2 ≠ 0 then ⟨Except.ok false, p⟩
        else if mz.cells (min gi1 gi2) ⌊x0b / mz.grid_width⌋ &&& 4 ≠ 0 then
          ⟨Except.ok false, p⟩
        else ⟨Except.ok true, ⟨p.x + dx, p.y + dy, p.heading⟩⟩)) ∧
      ((try_move_aux p dx dy mz).res = Except.ok true ↔
        (mz.cells ⌊y0 / mz.grid_height⌋ (min gj1 gj2) &&& 2 = 0 ∧
          mz.cells (min gi1 gi2) ⌊x0b / mz.grid_width⌋ &&& 4 = 0)) := by
  subst hgi1 hgi2 hgj1 hgj2 hy0 hx0b
  have hb : ¬ (⌊(p.y + dy) / mz.grid_height⌋ < 0 ∨
      (mz.num_rows : ℤ) ≤ ⌊(p.y + dy) / mz.grid_height⌋ ∨
      ⌊(p.x + dx) / mz.grid_width⌋ < 0 ∨
      (mz.num_cols : ℤ) ≤ ⌊(p.x + dx) / mz.grid_width⌋) := by
    omega
  have hns : ¬ (⌊p.y / mz.grid_height⌋ = ⌊(p.y + dy) / mz.grid_height⌋ ∧
      ⌊p.x / mz.grid_width⌋ = ⌊(p.x + dx) / mz.grid_width⌋) := by
    omega
  have hn3 : ¬ ((⌊p.y / mz.grid_height⌋ - ⌊(p.y + dy) / mz.grid_height⌋).natAbs = 1 ∧
      (⌊p.x / mz.grid_width⌋ - ⌊(p.x + dx) / mz.grid_width⌋).natAbs = 0) := by
    omega
  have hn4 : ¬ ((⌊p.y / mz.grid_height⌋ - ⌊(p.y + dy) / mz.grid_height⌋).natAbs = 0 ∧
      (⌊p.x / mz.grid_width⌋ - ⌊(p.x + dx) / mz.grid_width⌋).natAbs = 1) := by
    omega
  constructor
  · simp only [try_move_aux]
    rw [if_neg hb, if_neg hns, if_neg hn3, if_neg hn4, if_pos hdiag]
  · simp only [try_move_aux]
    rw [if_neg hb, if_neg hns, if_neg hn3, if_neg hn4, if_pos hdiag]
    split_ifs with hb1 hb2 <;> simp_all

theorem claim_C1_witness :
    (try_move_aux (⟨1/2, 1/2, 0⟩ : Pose ℚ) 1 1 mzQ_open2).res = Except.ok true :=
  (claim_C1 ⟨1/2, 1/2, 0⟩ 1 1 mzQ_open2 0 1 0 1 1 1
    (by with_unfolding_all decide) (by with_unfolding_all decide)
    (by with_unfolding_all decide) (by with_unfolding_all decide)
    (by with_unfolding_all decide) (by with_unfolding_all decide)
    (by with_unfolding_all decide) (by with_unfolding_all decide)).2.mpr
    ⟨by with_unfolding_all decide, by with_unfolding_all decide⟩

/-- Claim C6: try_move raises exactly when the candidate cell is inside the
grid and the move crosses more than one cell in some axis; an out-of-grid
candidate is rejected with False (pose unchanged), never an exception. -/
theorem claim_C6 (p : Pose K) (dx dy : K) (mz : Maze K) (gi1 gi2 gj1 gj2 : ℤ)
    (hgi1 : gi1 = ⌊p.y / mz.grid_height⌋) (hgi2 : gi2 = ⌊(p.y + dy) / mz.grid_height⌋)
    (hgj1 : gj1 = ⌊p.x / mz.grid_width⌋) (hgj2 : gj2 = ⌊(p.x + dx) / mz.grid_width⌋) :
    ((gi2 < 0 ∨ (mz.num_rows : ℤ) ≤ gi2 ∨ gj2 < 0 ∨ (mz.num_cols : ℤ) ≤ gj2) →
        try_move_aux p dx dy mz = ⟨Except.ok false, p⟩) ∧
      ((∃ s, (try_move_aux p dx dy mz).res = Except.error s) ↔
        ((0 ≤ gi2 ∧ gi2 < mz.num_rows ∧ 0 ≤ gj2 ∧ gj2 < mz.num_cols) ∧
          (1 < (gi1 - gi2).natAbs ∨ 1 < (gj1 - gj2).natAbs))) := by
  subst hgi1 hgi2 hgj1 hgj2
  constructor
  · intro hout
    simp only [try_move_aux]
    rw [if_pos hout]
  · simp only [try_move_aux]
    split_ifs <;> simp <;> omega

/-- Open 3 × 3 rational maze for a concrete contract-violating move. -/
def mzQ_open3 : Maze ℚ := ⟨1, 1, 3, 3, fun _ _ => 0⟩

theorem claim_C6_witness :
    ∃ s, (try_move_aux (⟨1/5, 1/5, 0⟩ : Pose ℚ) 0 (5/2) mzQ_open3).res =
      Except.error s :=
  (claim_C6 ⟨1/5, 1/5, 0⟩ 0 (5/2) mzQ_open3 0 2 0 0
    (by with_unfolding_all decide) (by with_unfolding_all decide)
    (by with_unfolding_all decide) (by with_unfolding_all decide)).2.mpr
    ⟨by with_unfolding_all decide, by with_unfolding_all decide⟩

/-- Unit 1 × 1 rational maze whose single cell has all four walls (mask 15). -/
def mzQ_unit : Maze ℚ := ⟨1, 1, 1, 1, fun _ _ => 15⟩

lemma pymod_nonneg (a b : K) (hb : 0 < b) : 0 ≤ pymod a b := by
  unfold pymod
  rw [mul_comm]
  linarith [(le_div_iff hb).mp (Int.floor_le (a / b))]

lemma pymod_lt (a b : K) (hb : 0 < b) : pymod a b < b := by
  unfold pymod
  rw [mul_comm]
  linarith [(div_lt_iff hb).mp (Int.lt_floor_add_one (a / b))]

/-- Claim C4 counterexample: the clamp of fix_invalid_particles is strict
(x > width), so the input pose x = width is returned unchanged and the
repaired x is not strictly below the maze width. -/
theorem claim_C4_counterexample :
    ¬ ((fix_invalid_particles mzQ_unit ⟨mzQ_unit.width, 0, 0⟩).x < mzQ_unit.width) := by
  with_unfolding_all decide

/-- Claim C4 as amended: for positive maze dimensions, fix_invalid_particles
clamps x into [0, width] — with x = width possible only when the input x was
exactly width — and symmetrically for y; the heading becomes the input
heading modulo 360, which lies in [0, 360). -/
theorem claim_C4_amended (mz : Maze K) (p : Pose K) (hw : 0 < mz.width)
    (hh : 0 < mz.height) :
    (0 ≤ (fix_invalid_particles mz p).x ∧ (fix_invalid_particles mz p).x ≤ mz.width ∧
      ((fix_invalid_particles mz p).x = mz.width → p.x = mz.width)) ∧
      (0 ≤ (fix_invalid_particles mz p).y ∧ (fix_invalid_particles mz p).y ≤ mz.height ∧
        ((fix_invalid_particles mz p).y = mz.height → p.y = mz.height)) ∧
      ((fix_invalid_particles mz p).heading = pymod p.heading 360 ∧
        0 ≤ (fix_invalid_particles mz p).heading ∧
        (fix_invalid_particles mz p).heading < 360) := by
  have hm := pymod_nonneg p.heading 360 (by norm_num)
  have hm2 := pymod_lt p.heading 360 (by norm_num)
  simp only [fix_invalid_particles]
  split_ifs <;>
    exact ⟨⟨by linarith, by linarith, fun hx => by linarith⟩,
      ⟨by linarith, by linarith, fun hy => by linarith⟩, by trivial, hm, hm2⟩

theorem claim_C4_witness :
    (0 : ℚ) < mzQ_unit.width ∧
      (0 ≤ (fix_invalid_particles mzQ_unit (⟨2, -3, 725⟩ : Pose ℚ)).x ∧
        (fix_invalid_particles mzQ_unit (⟨2, -3, 725⟩ : Pose ℚ)).x ≤ mzQ_unit.width ∧
        ((fix_invalid_particles mzQ_unit (⟨2, -3, 725⟩ : Pose ℚ)).x = mzQ_unit.width →
          (2 : ℚ) = mzQ_unit.width)) :=
  ⟨by with_unfolding_all decide,
    (claim_C4_amended mzQ_unit ⟨2, -3, 725⟩ (by with_unfolding_all decide)
      (by with_unfolding_all decide)).1⟩

lemma clip_eq_min (v lim : K) : (if v > lim then lim else v) = min v lim := by
  rcases le_or_lt v lim with h | h
  · rw [if_neg (not_lt.mpr h), min_eq_left h]
  · rw [if_pos h, min_eq_right h.le]

/-- Claim C5: read_sensor returns the raw distance 4-vector circularly rotated
according to the heading bucket (heading mod 360 in [45,135): unrotated;
[135,225): last element first; [225,315): rotated by two; the wrapping bucket:
rotated by three), and when a sensor limit is configured every component is
clipped from above to the limit (min), components at or below it unchanged. -/
theorem claim_C5 (mz : Maze K) (q : ParticleState K) (fuel : ℕ) (a b c d : K)
    (hd : distance_to_walls mz q.pose.x q.pose.y fuel = some [a, b, c, d]) :
    read_sensor mz q fuel = some
      ((if 45 ≤ pymod q.pose.heading 360 ∧ pymod q.pose.heading 360 < 135 then [a, b, c, d]
        else if 135 ≤ pymod q.pose.heading 360 ∧ pymod q.pose.heading 360 < 225 then
          [d, a, b, c]
        else if 225 ≤ pymod q.pose.heading 360 ∧ pymod q.pose.heading 360 < 315 then
          [c, d, a, b]
        else [b, c, d, a]).map (fun v =>
          match q.sensor_limit with
          | none => v
          | some lim => min v lim)) := by
  obtain ⟨⟨qx, qy, qh⟩, qw, qsl⟩ := q
  simp only [read_sensor]
  rw [hd]
  simp only [Option.map_some']
  congr 1
  cases qsl with
  | none =>
    simp only [orient_readings]
    split_ifs <;> simp
  | some lim =>
    simp only [orient_readings]
    split_ifs <;> simp [clip_eq_min]

theorem claim_C5_witness :
    distance_to_walls mzQ_unit (1/2 : ℚ) (1/2) 2 = some [1/2, 1/2, 1/2, 1/2] ∧
      read_sensor mzQ_unit ⟨⟨1/2, 1/2, 0⟩, 1, some (1/3)⟩ 2 =
        some [1/3, 1/3, 1/3, 1/3] := by
  have hd : distance_to_walls mzQ_unit (1/2 : ℚ) (1/2) 2 = some [1/2, 1/2, 1/2, 1/2] := by
    with_unfolding_all decide
  refine ⟨hd, ?_⟩
  rw [claim_C5 mzQ_unit ⟨⟨1/2, 1/2, 0⟩, 1, some (1/3)⟩ 2 (1/2) (1/2) (1/2) (1/2) hd]
  with_unfolding_all decide

/-- Claim C10: every particle of the post-resampling generation (fresh spawn
on a no-match draw, or noisy clone of a drawn particle) has weight exactly 1,
because both construction sites leave the weight argument at Python's default
1.0; the constructor stores the weight argument unchanged. -/
theorem claim_C10 (mz : Maze K) (draw : Option (ParticleState K)) (fx fy rh : K)
    (noise : K → K) (sl : Option K) :
    (resampled_particle mz draw fx fy sl rh noise).weight = 1 ∧
      (∀ x y heading w nsy,
        (particle_init x y mz heading w sl nsy rh noise).weight = w) := by
  refine ⟨?_, fun x y heading w nsy => rfl⟩
  cases draw <;> rfl

/-- Invariant A (boundary closure) for a maze with geometry: the outward bit
of every boundary cell is set. -/
def boundary_closed (mz : Maze K) : Prop :=
  (∀ j : ℕ, j < mz.num_cols → mz.cells 0 (j : ℤ) &&& 1 ≠ 0 ∧
      mz.cells ((mz.num_rows : ℤ) - 1) (j : ℤ) &&& 4 ≠ 0) ∧
    (∀ i : ℕ, i < mz.num_rows → mz.cells (i : ℤ) 0 &&& 8 ≠ 0 ∧
      mz.cells (i : ℤ) ((mz.num_cols : ℤ) - 1) &&& 2 ≠ 0)

instance (mz : Maze K) : Decidable (boundary_closed mz) := by
  unfold boundary_closed
  infer_instance

lemma walk_up_total (mz : Maze K) (hA : boundary_closed mz) :
    ∀ (fuel : ℕ) (i j : ℤ) (d : K), 0 ≤ i → i < mz.num_rows → 0 ≤ j → j < mz.num_cols →
      i < fuel →
      ∃ n : ℕ, (n : ℤ) ≤ i ∧ walk_up mz fuel i j d = some (d + n * mz.grid_height) := by
  intro fuel
  induction fuel with
  | zero => intro i j d h0 _ _ _ hf; exact absurd hf (by omega)
  | succ f ih =>
    intro i j d h0 h1 h2 h3 hf
    rw [walk_up, if_neg (not_not_intro ⟨h0, h1, h2, h3⟩)]
    by_cases hperm : (permissibilities mz i j).1 = true
    · rw [if_pos hperm]
      have hi0 : i ≠ 0 := by
        intro hz
        subst hz
        obtain ⟨hbit, -⟩ := hA.1 j.toNat (by omega)
        rw [Int.toNat_of_nonneg h2] at hbit
        exact hbit (by simpa [permissibilities] using hperm)
      obtain ⟨n, hn, heq⟩ :=
        ih (i - 1) j (d + mz.grid_height) (by omega) (by omega) h2 h3 (by omega)
      refine ⟨n + 1, by push_cast; omega, ?_⟩
      rw [heq]
      congr 1
      push_cast
      ring
    · rw [if_neg hperm]
      exact ⟨0, by omega, by simp⟩

lemma walk_down_total (mz : Maze K) (hA : boundary_closed mz) :
    ∀ (fuel : ℕ) (i j : ℤ) (d : K), 0 ≤ i → i < mz.num_rows → 0 ≤ j → j < mz.num_cols →
      (mz.num_rows : ℤ) - 1 - i < fuel →
      ∃ n : ℕ, (n : ℤ) ≤ (mz.num_rows : ℤ) - 1 - i ∧
        walk_down mz fuel i j d = some (d + n * mz.grid_height) := by
  intro fuel
  induction fuel with
  | zero => intro i j d h0 h1 _ _ hf; exact absurd hf (by omega)
  | succ f ih =>
    intro i j d h0 h1 h2 h3 hf
    rw [walk_down, if_neg (not_not_intro ⟨h0, h1, h2, h3⟩)]
    by_cases hperm : (permissibilities mz i j).2.2.1 = true
    · rw [if_pos hperm]
      have hib : i ≠ (mz.num_rows : ℤ) - 1 := by
        intro hz
        obtain ⟨-, hbit⟩ := hA.1 j.toNat (by omega)
        rw [Int.toNat_of_nonneg h2] at hbit
        rw [← hz] at hbit
        exact hbit (by simpa [permissibilities] using hperm)
      obtain ⟨n, hn, heq⟩ :=
        ih (i + 1) j (d + mz.grid_height) (by omega) (by omega) h2 h3 (by omega)
      refine ⟨n + 1, by push_cast; omega, ?_⟩
      rw [heq]
      congr 1
      push_cast
      ring
    · rw [if_neg hperm]
      exact ⟨0, by omega, by simp⟩

lemma walk_right_total (mz : Maze K) (hA : boundary_closed mz) :
    ∀ (fuel : ℕ) (i j : ℤ) (d : K), 0 ≤ i → i < mz.num_rows → 0 ≤ j → j < mz.num_cols →
      (mz.num_cols : ℤ) - 1 - j < fuel →
      ∃ n : ℕ, (n : ℤ) ≤ (mz.num_cols : ℤ) - 1 - j ∧
        walk_right mz fuel i j d = some (d + n * mz.grid_width) := by
  intro fuel
  induction fuel with
  | zero => intro i j d h0 _ h2 h3 hf; exact absurd hf (by omega)
  | succ f ih =>
    intro i j d h0 h1 h2 h3 hf
    rw [walk_right, if_neg (not_not_intro ⟨h0, h1, h2, h3⟩)]
    by_cases hperm : (permissibilities mz i j).2.1 = true
    · rw [if_pos hperm]
      have hjb : j ≠ (mz.num_cols : ℤ) - 1 := by
        intro hz
        obtain ⟨-, hbit⟩ := hA.2 i.toNat (by omega)
        rw [Int.toNat_of_nonneg h0] at hbit
        rw [← hz] at hbit
        exact hbit (by simpa [permissibilities] using hperm)
      obtain ⟨n, hn, heq⟩ :=
        ih i (j + 1) (d + mz.grid_width) h0 h1 (by omega) (by omega) (by omega)
      refine ⟨n + 1, by push_cast; omega, ?_⟩
      rw [heq]
      congr 1
      push_cast
      ring
    · rw [if_neg hperm]
      exact ⟨0, by omega, by simp⟩

lemma walk_left_total (mz : Maze K) (hA : boundary_closed mz) :
    ∀ (fuel : ℕ) (i j : ℤ) (d : K), 0 ≤ i → i < mz.num_rows → 0 ≤ j → j < mz.num_cols →
      j < fuel →
      ∃ n : ℕ, (n : ℤ) ≤ j ∧ walk_left mz fuel i j d = some (d + n * mz.grid_width) := by
  intro fuel
  induction fuel with
  | zero => intro i j d _ _ h2 _ hf; exact absurd hf (by omega)
  | succ f ih =>
    intro i j d h0 h1 h2 h3 hf
    rw [walk_left, if_neg (not_not_intro ⟨h0, h1, h2, h3⟩)]
    by_cases hperm : (permissibilities mz i j).2.2.2 = true
    · rw [if_pos hperm]
      have hj0 : j ≠ 0 := by
        intro hz
        subst hz
        obtain ⟨hbit, -⟩ := hA.2 i.toNat (by omega)
        rw [Int.toNat_of_nonneg h0] at hbit
        exact hbit (by simpa [permissibilities] using hperm)
      obtain ⟨n, hn, heq⟩ :=
        ih i (j - 1) (d + mz.grid_width) h0 h1 (by omega) (by omega) (by omega)
      refine ⟨n + 1, by push_cast; omega, ?_⟩
      rw [heq]
      congr 1
      push_cast
      ring
    · rw [if_neg hperm]
      exact ⟨0, by omega, by simp⟩

/-- Claim C8: under Invariant A, for any coordinate inside the maze each of
the four cell walks of distance_to_walls stops after at most num_rows
(respectively num_cols) hops without ever reading a cell outside the grid (a
some result of the fuelled walks certifies every read was in range), each hop
adding exactly grid_height (resp. grid_width) to the accumulated distance,
and distance_to_walls returns a reading. -/
theorem claim_C8 (mz : Maze K) (x y : K) (i0 j0 : ℤ) (d1 d2 d3 d4 : K)
    (hA : boundary_closed mz)
    (hgh : 0 < mz.grid_height) (hgw : 0 < mz.grid_width)
    (hi0 : i0 = ⌊y / mz.grid_height⌋) (hj0 : j0 = ⌊x / mz.grid_width⌋)
    (hd1 : d1 = y - (⌊y / mz.grid_height⌋ : K) * mz.grid_height)
    (hd2 : d2 = mz.grid_width - (x - (⌊x / mz.grid_width⌋ : K) * mz.grid_width))
    (hd3 : d3 = mz.grid_height - (y - (⌊y / mz.grid_height⌋ : K) * mz.grid_height))
    (hd4 : d4 = x - (⌊x / mz.grid_width⌋ : K) * mz.grid_width)
    (hx0 : 0 ≤ x) (hx1 : x < mz.width) (hy0 : 0 ≤ y) (hy1 : y < mz.height) :
    (∃ n : ℕ, n < mz.num_rows ∧
        walk_up mz (mz.num_rows + mz.num_cols) i0 j0 d1 =
          some (d1 + n * mz.grid_height)) ∧
      (∃ n : ℕ, n < mz.num_cols ∧
        walk_right mz (mz.num_rows + mz.num_cols) i0 j0 d2 =
          some (d2 + n * mz.grid_width)) ∧
      (∃ n : ℕ, n < mz.num_rows ∧
        walk_down mz (mz.num_rows + mz.num_cols) i0 j0 d3 =
          some (d3 + n * mz.grid_height)) ∧
      (∃ n : ℕ, n < mz.num_cols ∧
        walk_left mz (mz.num_rows + mz.num_cols) i0 j0 d4 =
          some (d4 + n * mz.grid_width)) ∧
      (∃ l, distance_to_walls mz x y (mz.num_rows + mz.num_cols) = some l) := by
  subst hi0 hj0 hd1 hd2 hd3 hd4
  have hyd : y / mz.grid_height < (mz.num_rows : K) := by
    rw [div_lt_iff hgh]
    simpa [Maze.height] using hy1
  have hxd : x / mz.grid_width < (mz.num_cols : K) := by
    rw [div_lt_iff hgw]
    simpa [Maze.width] using hx1
  have hi0n : 0 ≤ ⌊y / mz.grid_height⌋ := Int.floor_nonneg.mpr (div_nonneg hy0 hgh.le)
  have hj0n : 0 ≤ ⌊x / mz.grid_width⌋ := Int.floor_nonneg.mpr (div_nonneg hx0 hgw.le)
  have hi0lt : ⌊y / mz.grid_height⌋ < (mz.num_rows : ℤ) := by
    rw [Int.floor_lt]
    push_cast
    exact hyd
  have hj0lt : ⌊x / mz.grid_width⌋ < (mz.num_cols : ℤ) := by
    rw [Int.floor_lt]
    push_cast
    exact hxd
  obtain ⟨n1, hn1, heq1⟩ := walk_up_total mz hA (mz.num_rows + mz.num_cols)
    ⌊y / mz.grid_height⌋ ⌊x / mz.grid_width⌋
    (y - (⌊y / mz.grid_height⌋ : K) * mz.grid_height) hi0n hi0lt hj0n hj0lt
    (by push_cast; omega)
  obtain ⟨n2, hn2, heq2⟩ := walk_right_total mz hA (mz.num_rows + mz.num_cols)
    ⌊y / mz.grid_height⌋ ⌊x / mz.grid_width⌋
    (mz.grid_width - (x - (⌊x / mz.grid_width⌋ : K) * mz.grid_width)) hi0n hi0lt hj0n hj0lt
    (by push_cast; omega)
  obtain ⟨n3, hn3, heq3⟩ := walk_down_total mz hA (mz.num_rows + mz.num_cols)
    ⌊y / mz.grid_height⌋ ⌊x / mz.grid_width⌋
    (mz.grid_height - (y - (⌊y / mz.grid_height⌋ : K) * mz.grid_height)) hi0n hi0lt hj0n hj0lt
    (by push_cast; omega)
  obtain ⟨n4, hn4, heq4⟩ := walk_left_total mz hA (mz.num_rows + mz.num_cols)
    ⌊y / mz.grid_height⌋ ⌊x / mz.grid_width⌋
    (x - (⌊x / mz.grid_width⌋ : K) * mz.grid_width) hi0n hi0lt hj0n hj0lt
    (by push_cast; omega)
  refine ⟨⟨n1, by omega, heq1⟩, ⟨n2, by omega, heq2⟩, ⟨n3, by omega, heq3⟩,
    ⟨n4, by omega, heq4⟩, ?_⟩
  have hl : distance_to_walls mz x y (mz.num_rows + mz.num_cols) =
      some [y - (⌊y / mz.grid_height⌋ : K) * mz.grid_height + n1 * mz.grid_height,
        mz.grid_width - (x - (⌊x / mz.grid_width⌋ : K) * mz.grid_width) + n2 * mz.grid_width,
        mz.grid_height - (y - (⌊y / mz.grid_height⌋ : K) * mz.grid_height) +
          n3 * mz.grid_height,
        x - (⌊x / mz.grid_width⌋ : K) * mz.grid_width + n4 * mz.grid_width] := by
    simp only [distance_to_walls]
    rw [heq1, heq2, heq3, heq4]
  exact ⟨_, hl⟩

theorem claim_C8_witness :
    boundary_closed mzQ_unit ∧
      (∃ n : ℕ, n < mzQ_unit.num_rows ∧
        walk_up mzQ_unit (mzQ_unit.num_rows + mzQ_unit.num_cols) 0 0 (1/2 : ℚ) =
          some (1/2 + n * mzQ_unit.grid_height)) ∧
      (∃ l, distance_to_walls mzQ_unit (1/2 : ℚ) (1/2)
        (mzQ_unit.num_rows + mzQ_unit.num_cols) = some l) := by
  have h := claim_C8 mzQ_unit (1/2) (1/2) 0 0 (1/2) (1/2) (1/2) (1/2)
    (by with_unfolding_all decide) (by with_unfolding_all decide)
    (by with_unfolding_all decide) (by with_unfolding_all decide)
    (by with_unfolding_all decide) (by with_unfolding_all decide)
    (by with_unfolding_all decide) (by with_unfolding_all decide)
    (by with_unfolding_all decide) (by with_unfolding_all decide)
    (by with_unfolding_all decide) (by with_unfolding_all decide)
    (by with_unfolding_all decide)
  exact ⟨by with_unfolding_all decide, h.1, h.2.2.2.2⟩

lemma bisectGo_spec (a : List K) (x : K)
    (hs : ∀ k m : ℕ, k ≤ m → m < a.length → a.getD k 0 ≤ a.getD m 0) :
    ∀ (n lo hi : ℕ), hi - lo ≤ n → lo ≤ hi → hi ≤ a.length →
      (∀ k, k < lo → a.getD k 0 < x) →
      (∀ k, hi ≤ k → k < a.length → x ≤ a.getD k 0) →
      (lo ≤ bisectGo a x lo hi ∧ bisectGo a x lo hi ≤ hi ∧
        (∀ k, k < bisectGo a x lo hi → a.getD k 0 < x) ∧
        (bisectGo a x lo hi < a.length → x ≤ a.getD (bisectGo a x lo hi) 0)) := by
  intro n
  induction n with
  | zero =>
    intro lo hi hn hlh hha hlow hhigh
    have hstop : ¬ lo < hi := by omega
    rw [bisectGo, dif_neg hstop]
    exact ⟨le_refl lo, by omega, hlow, fun hlt => hhigh lo (by omega) hlt⟩
  | succ f ih =>
    intro lo hi hn hlh hha hlow hhigh
    by_cases hlt : lo < hi
    · rw [bisectGo, dif_pos hlt]
      have hm1 : lo ≤ (lo + hi) / 2 := by omega
      have hm2 : (lo + hi) / 2 < hi := by omega
      by_cases hcmp : a.getD ((lo + hi) / 2) 0 < x
      · rw [if_pos hcmp]
        have hlow' : ∀ k, k < (lo + hi) / 2 + 1 → a.getD k 0 < x := by
          intro k hk
          exact lt_of_le_of_lt (hs k ((lo + hi) / 2) (by omega) (by omega)) hcmp
        obtain ⟨r1, r2, r3, r4⟩ :=
          ih ((lo + hi) / 2 + 1) hi (by omega) (by omega) hha hlow' hhigh
        exact ⟨by omega, r2, r3, r4⟩
      · rw [if_neg hcmp]
        have hhigh' : ∀ k, (lo + hi) / 2 ≤ k → k < a.length → x ≤ a.getD k 0 := by
          intro k hk hk2
          exact le_trans (not_lt.mp hcmp) (hs ((lo + hi) / 2) k hk hk2)
        obtain ⟨r1, r2, r3, r4⟩ :=
          ih lo ((lo + hi) / 2) (by omega) (by omega) (by omega) hlow hhigh'
        exact ⟨r1, by omega, r3, r4⟩
    · rw [bisectGo, dif_neg hlt]
      exact ⟨le_refl lo, by omega, hlow, fun h => hhigh lo (by omega) h⟩

lemma cumsum_length (acc : K) (ws : List K) : (cumsum acc ws).length = ws.length := by
  induction ws generalizing acc with
  | nil => rfl
  | cons w ws ih => simp [cumsum, ih]

lemma cumsum_ge (ws : List K) :
    ∀ (acc : K) (m : ℕ), (∀ w ∈ ws, 0 ≤ w) → m < (cumsum acc ws).length →
      acc ≤ (cumsum acc ws).getD m 0 := by
  induction ws with
  | nil =>
    intro acc m _ hm
    simp [cumsum] at hm
  | cons w ws ih =>
    intro acc m hw hm
    have hw0 : 0 ≤ w := hw w (List.mem_cons_self w ws)
    cases m with
    | zero =>
      simp only [cumsum, List.getD_cons_zero]
      linarith
    | succ m' =>
      simp only [cumsum, List.getD_cons_succ]
      have hm' : m' < (cumsum (acc + w) ws).length := by
        simpa [cumsum] using hm
      have := ih (acc + w) m' (fun w' hw' => hw w' (List.mem_cons_of_mem w hw')) hm'
      linarith

lemma cumsum_getD_mono (ws : List K) :
    ∀ (acc : K) (k m : ℕ), (∀ w ∈ ws, 0 ≤ w) → k ≤ m → m < (cumsum acc ws).length →
      (cumsum acc ws).getD k 0 ≤ (cumsum acc ws).getD m 0 := by
  induction ws with
  | nil =>
    intro acc k m _ _ hm
    simp [cumsum] at hm
  | cons w ws ih =>
    intro acc k m hw hkm hm
    have hwtail : ∀ w' ∈ ws, 0 ≤ w' := fun w' hw' => hw w' (List.mem_cons_of_mem w hw')
    cases k with
    | zero =>
      cases m with
      | zero => exact le_refl _
      | succ m' =>
        simp only [cumsum, List.getD_cons_zero, List.getD_cons_succ]
        exact cumsum_ge ws (acc + w) m' hwtail (by simpa [cumsum] using hm)
    | succ k' =>
      cases m with
      | zero => omega
      | succ m' =>
        simp only [cumsum, List.getD_cons_succ]
        exact ih (acc + w) k' m' hwtail (by omega) (by simpa [cumsum] using hm)

/-- Claim C7: for a population with non-negative weights and a draw u in
(0, 1), random_select returns the particle at the left-most index whose
cumulative weight is at least u when such an index exists, and returns None
(never raising: the out-of-range lookup yields none) when every cumulative
entry is below u — in particular when the population is empty; the step loop
of main.py turns a None draw into a fresh uniformly-placed particle. -/
theorem claim_C7 (ps : List (ParticleState K)) (u : K)
    (hw : ∀ q ∈ ps, 0 ≤ q.weight) (hu0 : 0 < u) (hu1 : u < 1) :
    (∀ i : ℕ, i < (wd_distribution ps).length → u ≤ (wd_distribution ps).getD i 0 →
      (∀ k, k < i → (wd_distribution ps).getD k 0 < u) →
      random_select ps u = ps[i]? ∧ (ps[i]?).isSome = true) ∧
      ((∀ i : ℕ, i < (wd_distribution ps).length → (wd_distribution ps).getD i 0 < u) →
        random_select ps u = none) ∧
      (∀ (mz : Maze K) (fx fy rh : K) (noise : K → K) (sl : Option K),
        resampled_particle mz none fx fy sl rh noise =
          particle_init fx fy mz none (particle_default_weight K) sl false rh noise) := by
  have hlen : (wd_distribution ps).length = ps.length := by
    unfold wd_distribution
    rw [cumsum_length, List.length_map]
  have hwm : ∀ w ∈ ps.map (fun q => q.weight), 0 ≤ w := by
    intro w hwmem
    obtain ⟨q, hq, rfl⟩ := List.mem_map.mp hwmem
    exact hw q hq
  have hs : ∀ k m : ℕ, k ≤ m → m < (wd_distribution ps).length →
      (wd_distribution ps).getD k 0 ≤ (wd_distribution ps).getD m 0 := by
    intro k m hkm hm
    unfold wd_distribution at hm ⊢
    exact cumsum_getD_mono (ps.map fun q => q.weight) 0 k m hwm hkm hm
  obtain ⟨r1, r2, r3, r4⟩ := bisectGo_spec (wd_distribution ps) u hs
    (wd_distribution ps).length 0 (wd_distribution ps).length (by omega) (by omega)
    (le_refl _) (fun k hk => absurd hk (by omega)) (fun k h1 h2 => absurd h2 (by omega))
  refine ⟨?_, ?_, fun mz fx fy rh noise sl => rfl⟩
  · intro i hi hu hleft
    have hri : bisectGo (wd_distribution ps) u 0 (wd_distribution ps).length = i := by
      by_contra hne
      rcases lt_or_gt_of_ne hne with hlt | hgt
      · have hru := r4 (by omega)
        have := hleft _ hlt
        linarith
      · have := r3 i hgt
        linarith
    constructor
    · show ps[bisect_left (wd_distribution ps) u]? = ps[i]?
      rw [show bisect_left (wd_distribution ps) u = i from hri]
    · have hilen : i < ps.length := by omega
      simp [List.getElem?_eq_getElem hilen]
  · intro hall
    have hrlen : bisectGo (wd_distribution ps) u 0 (wd_distribution ps).length =
        (wd_distribution ps).length := by
      by_contra hne
      have hrlt : bisectGo (wd_distribution ps) u 0 (wd_distribution ps).length <
          (wd_distribution ps).length := by omega
      have := hall _ hrlt
      have := r4 hrlt
      linarith
    show ps[bisect_left (wd_distribution ps) u]? = none
    rw [show bisect_left (wd_distribution ps) u = (wd_distribution ps).length from hrlen]
    exact List.getElem?_eq_none (by omega)

theorem claim_C7_witness :
    (∀ q ∈ [(⟨⟨0, 0, 0⟩, 1, none⟩ : ParticleState ℚ)], 0 ≤ q.weight) ∧
      random_select [(⟨⟨0, 0, 0⟩, 1, none⟩ : ParticleState ℚ)] (1/2) =
        [(⟨⟨0, 0, 0⟩, 1, none⟩ : ParticleState ℚ)][0]? := by
  have hw : ∀ q ∈ [(⟨⟨0, 0, 0⟩, 1, none⟩ : ParticleState ℚ)], 0 ≤ q.weight := by
    intro q hq
    rw [List.mem_singleton] at hq
    rw [hq]
    with_unfolding_all decide
  refine ⟨hw, ?_⟩
  exact ((claim_C7 [(⟨⟨0, 0, 0⟩, 1, none⟩ : ParticleState ℚ)] (1/2) hw
    (by with_unfolding_all decide) (by with_unfolding_all decide)).1 0
    (by with_unfolding_all decide) (by with_unfolding_all decide)
    (fun k hk => absurd hk (by omega))).1

/-- Claim C3: for every maze built by the explicit-grid path (and, by the
final conjunct, by the randomized path, which ends in the same two fix-ups),
the constructed grid satisfies Invariant A (boundary closure) and Invariant B
(pairwise wall consistency), check_wall_inconsistency returns the empty list
on it, and the construction only ever ORs wall bits in, never clearing one. -/
theorem claim_C3 (nr nc : ℕ) (m : Grid) :
    boundary_closed_grid nr nc (maze_build nr nc m) ∧
      walls_consistent nr nc (maze_build nr nc m) ∧
      check_wall_inconsistency nr nc (maze_build nr nc m) = [] ∧
      subgrid m (maze_build nr nc m) ∧
      (∀ coinV coinH, boundary_closed_grid nr nc (random_maze nr nc coinV coinH) ∧
        walls_consistent nr nc (random_maze nr nc coinV coinH) ∧
        check_wall_inconsistency nr nc (random_maze nr nc coinV coinH) = []) :=
  ⟨boundary_closed_maze_build nr nc m, walls_consistent_maze_build nr nc m,
    check_empty_of_consistent nr nc _ (walls_consistent_maze_build nr nc m),
    subgrid_maze_build nr nc m,
    fun coinV coinH =>
      ⟨boundary_closed_maze_build nr nc _, walls_consistent_maze_build nr nc _,
        check_empty_of_consistent nr nc _ (walls_consistent_maze_build nr nc _)⟩⟩

end PF
